import Mathlib

/-!
Verification of the bibliomantic I Ching divination core against its
natural-language specification.  The repository ships only the entry point
and the test suite; the engine, catalog, adapter and session modules are
reconstructed here from the specification's contracts (each such definition
carries a doc comment beginning `Modelled from the spec:`).
-/

namespace Bibliomantic

/-- Modelled from the spec (CastLine, §3): a cast line is yin or yang,
stable or changing. -/
inductive LineValue where
  | yinStable
  | yinChanging
  | yangStable
  | yangChanging
  deriving DecidableEq, Repr

/-- A triple of fair-coin outcomes (`true` = heads), the randomness consumed
to cast one line. -/
abbrev CoinTriple := Bool × Bool × Bool

/-- Number of heads among the three coin tosses for one line. -/
def headsCount (c : CoinTriple) : Nat :=
  (if c.1 then 1 else 0) + (if c.2.1 then 1 else 0) + (if c.2.2 then 1 else 0)

/-- Modelled from the spec (§4.1, missing `iching.py` line caster): the
classical three-coin weighting. 3 heads → yang-changing, 2 heads →
yin-stable, 1 head → yang-stable, 0 heads → yin-changing. -/
def lineFromCoins (c : CoinTriple) : LineValue :=
  match headsCount c with
  | 3 => .yangChanging
  | 2 => .yinStable
  | 1 => .yangStable
  | _ => .yinChanging

/-- Whether the line is a yang line (its pattern bit is 1). -/
def LineValue.isYang : LineValue → Bool
  | .yangStable => true
  | .yangChanging => true
  | _ => false

/-- Whether the line is a changing (transitional) line. -/
def LineValue.isChanging : LineValue → Bool
  | .yinChanging => true
  | .yangChanging => true
  | _ => false

/-- Modelled from the spec (§4.1): reduce six cast lines (position 1 =
bottom = bit 0) to a 6-bit pattern, yin bit = 0, yang bit = 1, changing
status ignored. -/
def patternOfLines (l : Fin 6 → LineValue) : Nat :=
  (if (l 0).isYang then 1 else 0) + (if (l 1).isYang then 2 else 0) +
  (if (l 2).isYang then 4 else 0) + (if (l 3).isYang then 8 else 0) +
  (if (l 4).isYang then 16 else 0) + (if (l 5).isYang then 32 else 0)

/-- Modelled from the spec (§4.1, King Wen sequence): the 6-bit pattern of
hexagram `n` sits at index `n - 1`.  Bottom line is the least significant
bit; the value is `lower-trigram + 8 * upper-trigram` in the canonical
King Wen ordering. -/
def kingWenPatterns : List Nat :=
  [63, 0, 17, 34, 23, 58, 2, 16,
   55, 59, 7, 56, 61, 47, 4, 8,
   25, 38, 3, 48, 41, 37, 32, 1,
   57, 39, 33, 30, 18, 45, 28, 14,
   60, 15, 40, 5, 53, 43, 20, 10,
   35, 49, 31, 62, 24, 6, 26, 22,
   29, 46, 9, 36, 52, 11, 13, 44,
   54, 27, 50, 19, 51, 12, 21, 42]

/-- Modelled from the spec (§4.1): the explicit 6-bit-pattern → sequence
number lookup table (pairs `(pattern, number)`). -/
def kingWenTable : List (Nat × Nat) :=
  (List.range 64).map fun i => (kingWenPatterns.getD i 0, i + 1)

/-- Modelled from the spec (§4.1): resolve a 6-bit pattern to a King Wen
sequence number via the explicit table; `none` when the pattern is unmapped. -/
def patternToNumber (p : Nat) : Option Nat :=
  (kingWenTable.find? (fun e => e.1 == p)).map (·.2)

/-- Modelled from the spec (CastResult, §3): six cast lines, the derived
6-bit pattern, the resolved sequence number, and the changing-line
positions (1 = bottom). -/
structure CastResult where
  lines : Fin 6 → LineValue
  pattern : Nat
  number : Nat
  changing : List Nat

/-- Modelled from the spec (§4.1, `cast_hexagram`): each of the six line
positions is cast independently from its own triple of fair coin tosses,
then the lines are reduced to a pattern and resolved through the table. -/
def cast_hexagram (coins : Fin 6 → CoinTriple) : CastResult :=
  let l : Fin 6 → LineValue := fun i => lineFromCoins (coins i)
  let p : Nat := patternOfLines l
  { lines := l
    pattern := p
    number := (patternToNumber p).getD 0
    changing := (List.finRange 6).filterMap
      (fun i => if (l i).isChanging then some (i.val + 1) else none) }

/-- Modelled from the spec (§3, Hexagram Catalog; missing `iching.py` /
`enhanced_iching_core.py` data): the canonical English names of the 64
hexagrams in King Wen order (index `n - 1` holds hexagram `n`). -/
def hexagramNames : List String :=
  ["The Creative", "The Receptive", "Difficulty at the Beginning",
   "Youthful Folly", "Waiting", "Conflict", "The Army", "Holding Together",
   "The Taming Power of the Small", "Treading", "Peace", "Standstill",
   "Fellowship with Men", "Possession in Great Measure", "Modesty",
   "Enthusiasm", "Following", "Work on What Has Been Spoiled", "Approach",
   "Contemplation", "Biting Through", "Grace", "Splitting Apart", "Return",
   "Innocence", "The Taming Power of the Great", "The Corners of the Mouth",
   "Preponderance of the Great", "The Abysmal", "The Clinging", "Influence",
   "Duration", "Retreat", "The Power of the Great", "Progress",
   "Darkening of the Light", "The Family", "Opposition", "Obstruction",
   "Deliverance", "Decrease", "Increase", "Break-through", "Coming to Meet",
   "Gathering Together", "Pushing Upward", "Oppression", "The Well",
   "Revolution", "The Caldron", "The Arousing", "Keeping Still",
   "Development", "The Marrying Maiden", "Abundance", "The Wanderer",
   "The Gentle", "The Joyous", "Dispersion", "Limitation", "Inner Truth",
   "Preponderance of the Small", "After Completion", "Before Completion"]

/-- Modelled from the spec: the literal authored interpretation texts are
declared an open question (§9); only their structural shape is fixed, so a
representative interpretation is modelled schematically from the hexagram
name. -/
def interpretationText (name : String) : String :=
  "The oracle of " ++ name ++ " offers guidance for the question at hand."

/-- Modelled from the spec (§3): a catalog entry.  The enhanced-only
content (judgment, image, commentary, changing-line notes) lives in the
enhanced reading record, not in this base entry. -/
structure Hexagram where
  number : Nat
  name : String
  interpretation : String
  pattern : Nat
  deriving DecidableEq, Repr

/-- Modelled from the spec (§4.2): the 64-entry catalog, populated once
from static authored content, keyed by sequence number. -/
def hexagrams : List Hexagram :=
  (List.range 64).map fun i =>
    { number := i + 1
      name := hexagramNames.getD i ""
      interpretation := interpretationText (hexagramNames.getD i "")
      pattern := kingWenPatterns.getD i 0 }

/-- Modelled from the spec (§7): error kinds of the catalog lookups. -/
inductive IChingError where
  | invalidHexagramNumber
  | notFound
  deriving DecidableEq, Repr

/-- Modelled from the spec (§4.2, §7, `lookup`): a direct lookup validates
the number against 1..64 before consulting the catalog (the catalog is a
parameter so that independence from it on the validation path is a provable
statement). -/
def lookupIn (cat : List Hexagram) (n : Nat) : Except IChingError Hexagram :=
  if 1 ≤ n ∧ n ≤ 64 then
    match cat.find? (fun h => h.number == n) with
    | some h => .ok h
    | none => .error .notFound
  else .error .invalidHexagramNumber

/-- Modelled from the spec (§4.2): `lookup` against the process-wide catalog. -/
def lookup (n : Nat) : Except IChingError Hexagram :=
  lookupIn hexagrams n

/-- Modelled from the spec (§4.2, `lookup_by_pattern`): resolve a 6-bit
pattern through the King Wen table, then fetch the catalog entry. -/
def lookup_by_pattern (p : Nat) : Except IChingError Hexagram :=
  match patternToNumber p with
  | some n => lookupIn hexagrams n
  | none => .error .notFound

/-- Total fetch used by the casting path, where the number is always a
resolved King Wen number (catalog entry `n` sits at index `n - 1`). -/
def hexagramOfNumber (n : Nat) : Hexagram :=
  hexagrams.getD (n - 1) { number := 0, name := "", interpretation := "", pattern := 0 }

/-- Modelled from the spec (§4.4): the adapter's two states, fixed at
construction. -/
inductive Variant where
  | minimal
  | enhanced
  deriving DecidableEq, Repr

/-- Whether the adapter is bound to the enhanced engine. -/
def Variant.isEnhanced : Variant → Bool
  | .minimal => false
  | .enhanced => true

/-- Modelled from the spec (§4.3, Interpretation Composer): the enhanced
engine's richer structured output for one casting. -/
structure EnhancedResult where
  number : Nat
  name : String
  interpretation : String
  judgment : String
  image : String
  changingPositions : List Nat
  deriving DecidableEq, Repr

/-- Modelled from the spec: judgment texts are authored content left open
by §9; modelled schematically from the hexagram name. -/
def judgmentText (name : String) : String :=
  "The judgment of " ++ name ++ " counsels perseverance."

/-- Modelled from the spec: image texts are authored content left open by
§9; modelled schematically from the hexagram name. -/
def imageText (name : String) : String :=
  "The image of " ++ name ++ " mirrors the movement of heaven and earth."

/-- Modelled from the spec (minimal engine, `generate_hexagram_by_coins`):
cast six lines and return `(number, name, interpretation)`. -/
def minimalGenerate (coins : Fin 6 → CoinTriple) : Nat × String × String :=
  let cast := cast_hexagram coins
  let h := hexagramOfNumber cast.number
  (h.number, h.name, h.interpretation)

/-- Modelled from the spec (§4.3, enhanced engine): the same casting,
composed with the richer content and the changing-line positions. -/
def enhancedGenerate (coins : Fin 6 → CoinTriple) : EnhancedResult :=
  let cast := cast_hexagram coins
  let h := hexagramOfNumber cast.number
  { number := h.number
    name := h.name
    interpretation := h.interpretation
    judgment := judgmentText h.name
    image := imageText h.name
    changingPositions := cast.changing }

/-- Modelled from the spec (§4.4): the explicit projection narrowing the
enhanced engine's output to the frozen 3-tuple contract. -/
def narrowToTuple (r : EnhancedResult) : Nat × String × String :=
  (r.number, r.name, r.interpretation)

/-- Modelled from the spec (§4.4, adapter `generate_hexagram_by_coins`). -/
def adapterGenerate (v : Variant) (coins : Fin 6 → CoinTriple) :
    Nat × String × String :=
  match v with
  | .minimal => minimalGenerate coins
  | .enhanced => narrowToTuple (enhancedGenerate coins)

/-- Modelled from the spec (§4.4, adapter `get_hexagram_by_number`):
`(name, interpretation)` of the requested hexagram, identical under either
binding. -/
def adapterGetByNumber (v : Variant) (n : Nat) :
    Except IChingError (String × String) :=
  match v with
  | .minimal => (lookup n).map fun h => (h.name, h.interpretation)
  | .enhanced => (lookup n).map fun h =>
      narrowToTuple { number := h.number, name := h.name,
                      interpretation := h.interpretation,
                      judgment := judgmentText h.name,
                      image := imageText h.name,
                      changingPositions := [] } |>.2

/-- Modelled from the spec (§4.4, frozen contract): produces exactly
`I Ching Hexagram <number> - <name>: <interpretation_text>`. -/
def format_divination_text (number : Nat) (name interp : String) : String :=
  "I Ching Hexagram " ++ toString number ++ " - " ++ name ++ ": " ++ interp

/-- Modelled from the spec (§4.4): the adapter's formatting operation,
independent of the bound engine. -/
def adapterFormat (_ : Variant) (number : Nat) (name interp : String) :
    String :=
  format_divination_text number name interp

/-- Modelled from the spec (§3, DivinationRecord): the session result;
changing-line data is the optional, additive enhanced-only field. -/
structure DivinationRecord where
  success : Bool
  hexagram_number : Nat
  hexagram_name : String
  interpretation : String
  formatted_text : String
  changing_lines : Option (List Nat)
  deriving DecidableEq, Repr

/-- Modelled from the spec (§4.5, `perform_simple_divination`): one casting
through the adapter, `success` always true, base fields from the adapter's
3-tuple, changing-line data added only under the enhanced binding. -/
def perform_simple_divination (v : Variant) (coins : Fin 6 → CoinTriple) :
    DivinationRecord :=
  let t := adapterGenerate v coins
  { success := true
    hexagram_number := t.1
    hexagram_name := t.2.1
    interpretation := t.2.2
    formatted_text := format_divination_text t.1 t.2.1 t.2.2
    changing_lines :=
      match v with
      | .minimal => none
      | .enhanced => some (enhancedGenerate coins).changingPositions }

/-- Modelled from the spec (§4.5): the info mapping returned beside the
augmented text. -/
structure DivinationInfo where
  hexagram_number : Nat
  hexagram_name : String
  interpretation : String
  deriving DecidableEq, Repr

/-- Modelled from the spec (§4.5, `divine_query_augmentation`): one casting,
the query kept verbatim with the divinatory formatted text appended, and an
info mapping with the base fields. -/
def divine_query_augmentation (v : Variant) (coins : Fin 6 → CoinTriple)
    (query : String) : String × DivinationInfo :=
  let t := adapterGenerate v coins
  let formatted := format_divination_text t.1 t.2.1 t.2.2
  (query ++ ("\n\n" ++ formatted),
   { hexagram_number := t.1, hexagram_name := t.2.1, interpretation := t.2.2 })

/-- Modelled from the spec (§4.5): the statistics record. -/
structure Statistics where
  total_hexagrams : Nat
  system_status : String
  deriving DecidableEq, Repr

/-- Modelled from the spec (§4.5, `get_divination_statistics`): a pure read
of the catalog size and a fixed health indicator.  The list of previously
produced records is a parameter so that independence from prior activity is
a provable statement. -/
def get_divination_statistics (_history : List DivinationRecord) : Statistics :=
  { total_hexagrams := hexagrams.length
    system_status := "operational" }

/-- `q` occurs verbatim inside `s`. -/
def IsLiteralSubstring (q s : String) : Prop :=
  ∃ pre post, s = pre ++ q ++ post

/-! Shared helper lemmas. -/

lemma patternOfLines_lt_64 (l : Fin 6 → LineValue) : patternOfLines l < 64 := by
  unfold patternOfLines
  split_ifs <;> omega

lemma resolved_facts :
    ∀ p, p < 64 →
      1 ≤ (hexagramOfNumber ((patternToNumber p).getD 0)).number ∧
      (hexagramOfNumber ((patternToNumber p).getD 0)).number ≤ 64 ∧
      (hexagramOfNumber ((patternToNumber p).getD 0)).name ≠ "" ∧
      (hexagramOfNumber ((patternToNumber p).getD 0)).interpretation ≠ "" := by
  decide

lemma format_ne_empty (n : Nat) (name interp : String) :
    format_divination_text n name interp ≠ "" := by
  intro h
  have hlen := congrArg String.length h
  simp [format_divination_text, String.length_append] at hlen
  exact absurd hlen.1.1.1.2 (by decide)

lemma lookup_by_pattern_ok :
    ∀ p, p < 64 → (lookup_by_pattern p).toOption.isSome = true := by
  decide

/-- Claim C1: For every one of the 6 line positions, `cast_hexagram` derives
the line from that position's own triple of fair binary trials; the heads
count maps exactly as 3 → yang-changing, 2 → yin-stable, 1 → yang-stable,
0 → yin-changing; over the 8 equally likely coin triples the line values
occur with probability 1/8, 3/8, 3/8, 1/8 respectively, so changing lines
are individually rarer than stable lines. -/
theorem cast_line_distribution :
    (∀ coins : Fin 6 → CoinTriple, ∀ i : Fin 6,
        (cast_hexagram coins).lines i = lineFromCoins (coins i)) ∧
    (∀ c : CoinTriple,
        lineFromCoins c =
          if headsCount c = 3 then .yangChanging
          else if headsCount c = 2 then .yinStable
          else if headsCount c = 1 then .yangStable
          else .yinChanging) ∧
    Fintype.card CoinTriple = 8 ∧
    ((Finset.univ.filter fun c : CoinTriple =>
        lineFromCoins c = .yangChanging).card : ℚ) / 8 = 1 / 8 ∧
    ((Finset.univ.filter fun c : CoinTriple =>
        lineFromCoins c = .yinStable).card : ℚ) / 8 = 3 / 8 ∧
    ((Finset.univ.filter fun c : CoinTriple =>
        lineFromCoins c = .yangStable).card : ℚ) / 8 = 3 / 8 ∧
    ((Finset.univ.filter fun c : CoinTriple =>
        lineFromCoins c = .yinChanging).card : ℚ) / 8 = 1 / 8 ∧
    (Finset.univ.filter fun c : CoinTriple =>
        lineFromCoins c = .yangChanging).card <
      (Finset.univ.filter fun c : CoinTriple =>
        lineFromCoins c = .yangStable).card ∧
    (Finset.univ.filter fun c : CoinTriple =>
        lineFromCoins c = .yinChanging).card <
      (Finset.univ.filter fun c : CoinTriple =>
        lineFromCoins c = .yinStable).card := by
  refine ⟨fun coins i => rfl, by decide, by decide, ?_, ?_, ?_, ?_,
    by decide, by decide⟩
  · rw [show (Finset.univ.filter fun c : CoinTriple =>
      lineFromCoins c = .yangChanging).card = 1 from by decide]; norm_num
  · rw [show (Finset.univ.filter fun c : CoinTriple =>
      lineFromCoins c = .yinStable).card = 3 from by decide]; norm_num
  · rw [show (Finset.univ.filter fun c : CoinTriple =>
      lineFromCoins c = .yangStable).card = 3 from by decide]; norm_num
  · rw [show (Finset.univ.filter fun c : CoinTriple =>
      lineFromCoins c = .yinChanging).card = 1 from by decide]; norm_num

set_option maxRecDepth 4000 in
/-- Claim C2: The fixed 6-bit-pattern-to-number table covers all 64
patterns injectively and surjectively onto 1..64, and for every pattern the
casting engine can produce, `lookup_by_pattern` succeeds (its NotFound
branch is unreachable for cast patterns). -/
theorem pattern_table_bijection_total :
    kingWenTable.length = 64 ∧
    (∀ p q : Fin 64, patternToNumber p.val = patternToNumber q.val → p = q) ∧
    (∀ p : Fin 64, (patternToNumber p.val).isSome = true) ∧
    (∀ n : Fin 64, ∃ p : Fin 64, patternToNumber p.val = some (n.val + 1)) ∧
    (∀ coins : Fin 6 → CoinTriple,
        (lookup_by_pattern (cast_hexagram coins).pattern).toOption.isSome = true) := by
  refine ⟨by decide, by decide, by decide, by decide, fun coins => ?_⟩
  exact lookup_by_pattern_ok _
    (patternOfLines_lt_64 (fun i => lineFromCoins (coins i)))

/-- Witness for C2: the table is applicable at concrete inputs; pattern 63
is mapped, and the injectivity conjunct instantiates at pattern 63. -/
theorem pattern_table_bijection_total_witness :
    (patternToNumber 63).isSome = true ∧
    (⟨63, by norm_num⟩ : Fin 64) = ⟨63, by norm_num⟩ :=
  ⟨pattern_table_bijection_total.2.2.1 ⟨63, by norm_num⟩,
   pattern_table_bijection_total.2.1 ⟨63, by norm_num⟩ ⟨63, by norm_num⟩ rfl⟩

/-- Claim C3: The catalog holds exactly 64 hexagrams whose sequence numbers
are precisely 1..64 in order (a bijection onto that range), and for every
`n` in 1..64, `lookup n` returns a hexagram whose own number equals `n`.
The catalog is a process-wide constant (`hexagrams` is a closed definition
populated once; the model offers no mutation). -/
theorem catalog_bijection_lookup :
    hexagrams.length = 64 ∧
    hexagrams.map (·.number) = (List.range 64).map (· + 1) ∧
    (∀ n : Fin 64,
        (lookup (n.val + 1)).toOption.map (·.number) = some (n.val + 1)) := by
  refine ⟨by decide, by decide, by decide⟩

/-- Claim C4: Under either engine binding, the adapter's
`format_divination_text` produces exactly
`I Ching Hexagram <number> - <name>: <interpretation_text>`, and in
particular maps `(1, The Creative, Test interpretation)` to the exact
literal the test suite asserts, byte-for-byte in both bindings. -/
theorem format_divination_text_contract :
    (∀ (v : Variant) (n : Nat) (name interp : String),
        adapterFormat v n name interp =
          "I Ching Hexagram " ++ toString n ++ " - " ++ name ++ ": " ++ interp) ∧
    (∀ v : Variant,
        adapterFormat v 1 "The Creative" "Test interpretation" =
          "I Ching Hexagram 1 - The Creative: Test interpretation") :=
  ⟨fun _ _ _ _ => rfl, fun _ => rfl⟩

/-- Claim C5: The adapter exposes the same three operations with identical
results under either binding: generation agrees 3-tuple-for-3-tuple on the
same randomness, lookup agrees, formatting agrees; the session record keeps
the base 3-tuple fields unchanged, so richer fields surface only one layer
up as additive options. -/
theorem adapter_equivalence :
    (∀ coins : Fin 6 → CoinTriple,
        adapterGenerate .minimal coins = adapterGenerate .enhanced coins) ∧
    (∀ n : Nat, adapterGetByNumber .minimal n = adapterGetByNumber .enhanced n) ∧
    (∀ (v : Variant) (n : Nat) (name interp : String),
        adapterFormat v n name interp = adapterFormat .minimal n name interp) ∧
    (∀ (v : Variant) (coins : Fin 6 → CoinTriple),
        ((perform_simple_divination v coins).hexagram_number,
         (perform_simple_divination v coins).hexagram_name,
         (perform_simple_divination v coins).interpretation) =
          adapterGenerate v coins) := by
  refine ⟨fun coins => rfl, fun n => ?_, fun _ _ _ _ => rfl, fun v coins => rfl⟩
  unfold adapterGetByNumber
  cases lookup n <;> rfl

/-- Claim C6: For every query string, engine binding and coin randomness,
`divine_query_augmentation` returns an augmented text containing the query
verbatim, together with an info record whose hexagram number lies in 1..64
and whose name and interpretation are non-empty. -/
theorem query_augmentation_invariant :
    ∀ (v : Variant) (coins : Fin 6 → CoinTriple) (q : String),
      IsLiteralSubstring q (divine_query_augmentation v coins q).1 ∧
      1 ≤ (divine_query_augmentation v coins q).2.hexagram_number ∧
      (divine_query_augmentation v coins q).2.hexagram_number ≤ 64 ∧
      (divine_query_augmentation v coins q).2.hexagram_name ≠ "" ∧
      (divine_query_augmentation v coins q).2.interpretation ≠ "" := by
  intro v coins q
  have hf := resolved_facts _ (patternOfLines_lt_64 (fun i => lineFromCoins (coins i)))
  refine ⟨⟨"", _, rfl⟩, ?_, ?_, ?_, ?_⟩ <;> cases v
  · exact hf.1
  · exact hf.1
  · exact hf.2.1
  · exact hf.2.1
  · exact hf.2.2.1
  · exact hf.2.2.1
  · exact hf.2.2.2
  · exact hf.2.2.2

/-- Claim C7: Every `perform_simple_divination` call returns a record with
`success = true` and populated base fields (number in 1..64, non-empty
name, interpretation and formatted text); changing-line data is present
exactly when the bound engine is the enhanced one. -/
theorem simple_divination_always_succeeds :
    ∀ (v : Variant) (coins : Fin 6 → CoinTriple),
      (perform_simple_divination v coins).success = true ∧
      1 ≤ (perform_simple_divination v coins).hexagram_number ∧
      (perform_simple_divination v coins).hexagram_number ≤ 64 ∧
      (perform_simple_divination v coins).hexagram_name ≠ "" ∧
      (perform_simple_divination v coins).interpretation ≠ "" ∧
      (perform_simple_divination v coins).formatted_text ≠ "" ∧
      (perform_simple_divination v coins).changing_lines.isSome = v.isEnhanced := by
  intro v coins
  have hf := resolved_facts _ (patternOfLines_lt_64 (fun i => lineFromCoins (coins i)))
  refine ⟨rfl, ?_, ?_, ?_, ?_, ?_, ?_⟩ <;> cases v
  · exact hf.1
  · exact hf.1
  · exact hf.2.1
  · exact hf.2.1
  · exact hf.2.2.1
  · exact hf.2.2.1
  · exact hf.2.2.2
  · exact hf.2.2.2
  · exact format_ne_empty _ _ _
  · exact format_ne_empty _ _ _
  · rfl
  · rfl

/-- Claim C8: `get_divination_statistics` always reports exactly 64 total
hexagrams and the constant status `operational`, whatever the history of
prior castings; the result coincides with the statistics over an empty
history. -/
theorem statistics_constant :
    ∀ history : List DivinationRecord,
      get_divination_statistics history =
        { total_hexagrams := 64, system_status := "operational" } ∧
      get_divination_statistics history = get_divination_statistics [] :=
  fun _ => ⟨rfl, rfl⟩

/-- Claim C9: For every number outside 1..64, direct lookup fails with
`invalidHexagramNumber` whatever the catalog contains (so the catalog is
not consulted), and the caller never receives a substituted hexagram. -/
theorem invalid_number_error (cat : List Hexagram) (n : Nat)
    (h : ¬(1 ≤ n ∧ n ≤ 64)) :
    lookupIn cat n = .error .invalidHexagramNumber ∧
    lookupIn cat n = lookupIn [] n ∧
    ∀ hx : Hexagram, lookupIn cat n ≠ .ok hx := by
  unfold lookupIn
  rw [if_neg h, if_neg h]
  exact ⟨rfl, rfl, fun hx hc => Except.noConfusion hc⟩

/-- Witness for C9: lookup of 65 against the real catalog is rejected. -/
theorem invalid_number_error_witness :
    lookupIn hexagrams 65 = .error .invalidHexagramNumber :=
  (invalid_number_error hexagrams 65 (by decide)).1

end Bibliomantic
